import Mathlib

/-!
# Verification of the TermGraph terminal-graphics subsystem

Shallow embedding of the graphics subsystem of the TermGraph repository
(`src/graphics/`): the Kitty ("tile") protocol encoder with its chunked
transmission (`thumbnails.rs::encode_kitty`, `kitty.rs::render`), protocol
detection from environment variables (`mod.rs::detect_protocol`), the
thumbnail and icon caches (`thumbnails.rs::get_thumbnail`,
`icons.rs::get_icon_sequence`), thumbnail sizing
(`thumbnails.rs::create_thumbnail`), and icon synthesis
(`icons.rs::generate_icon`).

Conventions of the embedding:
* Byte strings are `List Char` (the payloads are ASCII); raw bytes are
  `List Nat` with values below 256.
* PNG container serialization (the external `image` crate) is not modelled:
  encoders are parameterized by the PNG byte stream; the base64 step
  (`base64::STANDARD.encode`) is modelled exactly.
* Rust float expressions `(a as f32 * b as f32 / c as f32) as u32` are
  modelled by exact natural arithmetic `a * b / c` (the `as u32` cast
  truncates toward zero, as does `Nat` division); at the concrete
  dimensions used below the `f32` computation is exact enough that the
  truncated results agree.
-/

namespace TermGraph

/-! ## Base64 (RFC 4648 standard alphabet with padding)

Model of `base64::engine::general_purpose::STANDARD.encode`. -/

def b64Alphabet : List Char :=
  "ABCDEFGHIJKLMNOPQRSTUVWXYZabcdefghijklmnopqrstuvwxyz0123456789+/".toList

def b64Char (n : Nat) : Char := b64Alphabet.getD n 'A'

/-- Base64-encode a byte list (values `< 256`), standard padding. -/
def base64Encode : List Nat → List Char
  | [] => []
  | [a] => [b64Char (a / 4), b64Char (a % 4 * 16), '=', '=']
  | [a, b] => [b64Char (a / 4), b64Char (a % 4 * 16 + b / 16), b64Char (b % 16 * 4), '=']
  | a :: b :: c :: rest =>
      b64Char (a / 4) :: b64Char (a % 4 * 16 + b / 16) ::
      b64Char (b % 16 * 4 + c / 64) :: b64Char (c % 64) :: base64Encode rest

theorem base64Encode_length (l : List Nat) :
    (base64Encode l).length = 4 * ((l.length + 2) / 3) := by
  match l with
  | [] => rfl
  | [a] => simp [base64Encode]
  | [a, b] => simp [base64Encode]
  | a :: b :: c :: rest =>
    have ih := base64Encode_length rest
    simp only [base64Encode, List.length_cons, ih]
    omega

/-! ## Chunk splitting

Model of Rust's `slice::chunks(n)`: cut the list into consecutive runs of
length `n`, the last possibly shorter, none empty.  (Rust panics on
`n = 0`; the model returns `[]` there, a case never reached: the source
always calls with `4096`.) -/

def chunksOf : Nat → List α → List (List α)
  | _, [] => []
  | 0, _ :: _ => []
  | n + 1, a :: t => (a :: t).take (n + 1) :: chunksOf (n + 1) ((a :: t).drop (n + 1))
termination_by _ l => l.length
decreasing_by
  simp only [List.length_drop, List.length_cons]
  omega

theorem chunksOf_nil (n : Nat) : chunksOf n ([] : List α) = [] := by
  cases n <;> rw [chunksOf]

theorem chunksOf_cons (n : Nat) (hn : 0 < n) (l : List α) (hl : l ≠ []) :
    chunksOf n l = l.take n :: chunksOf n (l.drop n) := by
  match n, l with
  | 0, _ => omega
  | n + 1, [] => exact absurd rfl hl
  | n + 1, a :: t => rw [chunksOf]

/-- Concatenating the chunks restores the original list. -/
theorem flatten_chunksOf (n : Nat) (hn : 0 < n) (l : List α) :
    (chunksOf n l).flatten = l := by
  by_cases hl : l = []
  · subst hl; simp [chunksOf_nil]
  · have hlen : (l.drop n).length < l.length := by
      have : 0 < l.length := List.length_pos.mpr hl
      simp only [List.length_drop]; omega
    rw [chunksOf_cons n hn l hl, List.flatten_cons,
      flatten_chunksOf n hn (l.drop n), List.take_append_drop]
termination_by l.length

/-- Number of chunks is the ceiling of `length / n`. -/
theorem length_chunksOf (n : Nat) (hn : 0 < n) (l : List α) :
    (chunksOf n l).length = (l.length + n - 1) / n := by
  by_cases hl : l = []
  · subst hl
    rw [chunksOf_nil]
    simp only [List.length_nil, List.length, Nat.zero_add]
    rw [Nat.div_eq_of_lt (by omega)]
  · have hpos : 0 < l.length := List.length_pos.mpr hl
    have hlt : (l.drop n).length < l.length := by
      simp only [List.length_drop]; omega
    rw [chunksOf_cons n hn l hl, List.length_cons,
      length_chunksOf n hn (l.drop n)]
    simp only [List.length_drop]
    rcases le_or_lt l.length n with h | h
    · have h1 : l.length - n = 0 := by omega
      rw [h1]
      rw [Nat.div_eq_of_lt (by omega)]
      have h3 : l.length + n - 1 = (l.length - 1) + 1 * n := by omega
      rw [h3, Nat.add_mul_div_right _ _ hn, Nat.div_eq_of_lt (by omega)]
    · have h1 : l.length - n + n - 1 = l.length - 1 := by omega
      have h2 : l.length + n - 1 = (l.length - 1) + n := by omega
      rw [h1, h2, Nat.add_div_right _ hn]
termination_by l.length

/-- Every chunk except possibly the last has length exactly `n`. -/
theorem chunksOf_dropLast_length (n : Nat) (hn : 0 < n) (l : List α) :
    ∀ c ∈ (chunksOf n l).dropLast, c.length = n := by
  by_cases hl : l = []
  · subst hl; simp [chunksOf_nil]
  · have hpos : 0 < l.length := List.length_pos.mpr hl
    have hlt : (l.drop n).length < l.length := by
      simp only [List.length_drop]; omega
    rw [chunksOf_cons n hn l hl]
    by_cases hd : l.drop n = []
    · rw [hd, chunksOf_nil]
      simp
    · intro c hc
      rw [List.dropLast_cons_of_ne_nil (by rw [chunksOf_cons n hn _ hd]; simp)] at hc
      rcases List.mem_cons.mp hc with h | h
      · subst h
        have : n ≤ l.length := by
          by_contra hcon
          push_neg at hcon
          exact hd (List.drop_eq_nil_of_le (by omega))
        simp [List.length_take]
        omega
      · exact chunksOf_dropLast_length n hn (l.drop n) c h
termination_by l.length

/-- Every chunk has length at most `n`. -/
theorem chunksOf_length_le (n : Nat) (l : List α) :
    ∀ c ∈ chunksOf n l, c.length ≤ n := by
  match n, l with
  | _, [] => simp [chunksOf_nil]
  | 0, _ :: _ => intro c hc; simp [chunksOf] at hc
  | n + 1, a :: t =>
    have hlt : ((a :: t).drop (n + 1)).length < (a :: t).length := by
      simp only [List.length_drop, List.length_cons]; omega
    rw [chunksOf_cons (n + 1) (by omega) _ (by simp)]
    intro c hc
    rcases List.mem_cons.mp hc with h | h
    · subst h; simp [List.length_take]
    · exact chunksOf_length_le (n + 1) ((a :: t).drop (n + 1)) c h
termination_by l.length

/-! ## Kitty ("tile") protocol frames

Model of `ThumbnailCache::encode_kitty` (`src/graphics/thumbnails.rs`,
lines 88–129).  A frame records whether it carries the full control
metadata (`f=100,a=T,t=d,c=<cols>,r=<rows>`), the continuation flag `m`
(`none` for the unchunked single frame), and its payload — a slice of the
already base64-encoded string. -/

structure KittyFrame where
  hasHeader : Bool
  cols : Nat
  rows : Nat
  m : Option Nat
  payload : List Char
deriving DecidableEq, Repr

/-- The one frame emitted when the encoded payload fits the 4096 threshold. -/
def kittySingleFrame (cols rows : Nat) (encoded : List Char) : KittyFrame :=
  ⟨true, cols, rows, none, encoded⟩

/-- The frames of chunked transmission: one per 4096-byte chunk of the
base64 string; the first carries the header; `m = 0` exactly on the last
chunk (`is_last = i == chunks.len() - 1`), `m = 1` otherwise. -/
def kittyChunkFrames (cols rows : Nat) (encoded : List Char) : List KittyFrame :=
  let chunks := chunksOf 4096 encoded
  chunks.enum.map fun p =>
    ⟨p.1 = 0, cols, rows, some (if p.1 = chunks.length - 1 then 0 else 1), p.2⟩

/-- `encode_kitty`, at the frame level: single frame iff the base64 string
has length ≤ 4096, chunked otherwise. -/
def encode_kitty (cols rows : Nat) (encoded : List Char) : List KittyFrame :=
  if encoded.length ≤ 4096 then [kittySingleFrame cols rows encoded]
  else kittyChunkFrames cols rows encoded

def escChar : Char := '\x1b'

def natChars (n : Nat) : List Char := (toString n).toList

/-- Byte-exact rendering of one frame, following the three `format!`
templates of `encode_kitty`. -/
def renderFrame (f : KittyFrame) : List Char :=
  match f.m with
  | none =>
      escChar :: ("_Gf=100,a=T,t=d,c=".toList ++ natChars f.cols ++ ",r=".toList
        ++ natChars f.rows ++ ";".toList ++ f.payload ++ [escChar, '\\'])
  | some mv =>
      if f.hasHeader then
        escChar :: ("_Gf=100,a=T,t=d,c=".toList ++ natChars f.cols ++ ",r=".toList
          ++ natChars f.rows ++ ",m=".toList ++ natChars mv ++ ";".toList
          ++ f.payload ++ [escChar, '\\'])
      else
        escChar :: ("_Gm=".toList ++ natChars mv ++ ";".toList ++ f.payload ++ [escChar, '\\'])

/-- The full escape-sequence string `encode_kitty` returns: the frames
rendered and concatenated in emission order. -/
def encodeKittyStr (cols rows : Nat) (encoded : List Char) : List Char :=
  ((encode_kitty cols rows encoded).map renderFrame).flatten

/-- Cell-count computation of `encode_kitty` (≈12 px per column):
`(w as f32 / 12.0).ceil() as u16`, exact ceiling division here. -/
def cellCols (w : Nat) : Nat := (w + 11) / 12

/-- `(h as f32 / 24.0).ceil() as u16`. -/
def cellRows (h : Nat) : Nat := (h + 23) / 24

/-! ### Structure lemmas about the chunked frame list -/

theorem chunksOf_ne_nil (n : Nat) (hn : 0 < n) (l : List α) (hl : l ≠ []) :
    chunksOf n l ≠ [] := by
  rw [chunksOf_cons n hn l hl]
  simp

theorem kittyChunkFrames_length (cols rows : Nat) (e : List Char) :
    (kittyChunkFrames cols rows e).length = (chunksOf 4096 e).length := by
  simp [kittyChunkFrames, List.enum_length]

/-- The payloads of the chunked frames are exactly the chunks. -/
theorem kittyChunkFrames_map_payload (cols rows : Nat) (e : List Char) :
    (kittyChunkFrames cols rows e).map KittyFrame.payload = chunksOf 4096 e := by
  simp only [kittyChunkFrames, List.map_map]
  have : (KittyFrame.payload ∘ fun p : Nat × List Char =>
      KittyFrame.mk (p.1 = 0) cols rows
        (some (if p.1 = (chunksOf 4096 e).length - 1 then 0 else 1)) p.2) = Prod.snd := by
    funext p; rfl
  rw [this, List.enum_map_snd]

/-- The continuation flags of the chunked frames: `1` everywhere except the
final frame, which carries `0`. -/
theorem kittyChunkFrames_map_m (cols rows : Nat) (e : List Char) (he : e ≠ []) :
    (kittyChunkFrames cols rows e).map KittyFrame.m
      = List.replicate ((chunksOf 4096 e).length - 1) (some 1) ++ [some 0] := by
  have hk : 0 < (chunksOf 4096 e).length :=
    List.length_pos.mpr (chunksOf_ne_nil 4096 (by omega) e he)
  set k := (chunksOf 4096 e).length with hkdef
  simp only [kittyChunkFrames, List.map_map]
  have hleft : ∀ i, i < k →
      ((chunksOf 4096 e).enum.map ((fun f => f.m) ∘ fun p : Nat × List Char =>
          KittyFrame.mk (p.1 = 0) cols rows
            (some (if p.1 = k - 1 then 0 else 1)) p.2)).length = k := by
    intro _ _
    simp [List.enum_length]
  apply List.ext_getElem
  · simp [List.enum_length]
    omega
  · intro i h1 h2
    have hik : i < k := by
      simpa [List.enum_length] using h1
    rw [List.getElem_map, List.getElem_enum]
    by_cases hi : i = k - 1
    · have hlen : (List.replicate (k - 1) (some 1) : List (Option Nat)).length = k - 1 := by
        simp
      rw [List.getElem_append_right (by omega)]
      simp only [Function.comp_apply, hi, if_pos rfl]
      simp [hlen]
    · rw [List.getElem_append_left (by simp; omega)]
      simp only [Function.comp_apply, if_neg hi]
      simp

/-- Frame count and flag list for `encode_kitty` past the threshold. -/
theorem encode_kitty_length (cols rows : Nat) (e : List Char) (h : 4096 < e.length) :
    (encode_kitty cols rows e).length = (e.length + 4095) / 4096 := by
  rw [encode_kitty, if_neg (by omega), kittyChunkFrames_length,
    length_chunksOf 4096 (by omega)]
  congr 1

theorem encode_kitty_map_m (cols rows : Nat) (e : List Char) (h : 4096 < e.length) :
    (encode_kitty cols rows e).map KittyFrame.m
      = List.replicate ((encode_kitty cols rows e).length - 1) (some 1) ++ [some 0] := by
  have he : e ≠ [] := by
    intro hc; subst hc; simp at h
  rw [encode_kitty, if_neg (by omega), kittyChunkFrames_map_m cols rows e he,
    kittyChunkFrames_length]

/-! ## Claims C1–C4: the chunked Kitty transmission -/

/-- Claim C1: for every bitmap (here: its PNG byte stream) whose
base64-encoded payload exceeds 4096 bytes, concatenating the chunk
payloads of the emitted frames in emission order yields exactly the
single-frame payload that the unchunked encoding would carry: the chunks
are slices of the already base64-encoded string. -/
theorem chunk_payloads_concat_to_single_payload (cols rows : Nat) (png : List Nat)
    (h : 4096 < (base64Encode png).length) :
    ((encode_kitty cols rows (base64Encode png)).map KittyFrame.payload).flatten
      = (kittySingleFrame cols rows (base64Encode png)).payload := by
  rw [encode_kitty, if_neg (by omega), kittyChunkFrames_map_payload,
    flatten_chunksOf 4096 (by omega)]
  rfl

/-- Witness for C1 at a concrete input: 3075 PNG bytes base64-encode to a
4100-character payload, past the threshold. -/
theorem chunk_payloads_concat_witness :
    4096 < (base64Encode (List.replicate 3075 0)).length ∧
    ((encode_kitty 25 5 (base64Encode (List.replicate 3075 0))).map
        KittyFrame.payload).flatten
      = (kittySingleFrame 25 5 (base64Encode (List.replicate 3075 0))).payload := by
  have h : 4096 < (base64Encode (List.replicate 3075 0)).length := by
    rw [base64Encode_length, List.length_replicate]
    norm_num
  exact ⟨h, chunk_payloads_concat_to_single_payload 25 5 (List.replicate 3075 0) h⟩

/-- Claim C2: in every chunked emission (payload longer than 4096), the
frame list is nonempty, the continuation flags are `1` on every frame but
the last and `0` exactly on the last frame: the flag list is
`replicate (k-1) 1 ++ [0]`, the flag `0` occurs exactly once, and it is
the last flag. -/
theorem chunked_continuation_flag_last (cols rows : Nat) (e : List Char)
    (h : 4096 < e.length) :
    encode_kitty cols rows e ≠ [] ∧
    (encode_kitty cols rows e).map KittyFrame.m
      = List.replicate ((encode_kitty cols rows e).length - 1) (some 1) ++ [some 0] ∧
    ((encode_kitty cols rows e).map KittyFrame.m).count (some 0) = 1 ∧
    ((encode_kitty cols rows e).map KittyFrame.m).getLast? = some (some 0) := by
  have hm := encode_kitty_map_m cols rows e h
  refine ⟨?_, hm, ?_, ?_⟩
  · intro hc
    rw [hc] at hm
    simp at hm
  · rw [hm, List.count_append, List.count_replicate]
    simp
  · rw [hm, List.getLast?_concat]

/-- Witness for C2 at a concrete 4100-character payload. -/
theorem chunked_continuation_flag_last_witness :
    4096 < (List.replicate 4100 'x').length ∧
    ((encode_kitty 2 1 (List.replicate 4100 'x')).map KittyFrame.m).count (some 0) = 1 := by
  have h : 4096 < (List.replicate 4100 'x').length := by
    rw [List.length_replicate]
    norm_num
  exact ⟨h, (chunked_continuation_flag_last 2 1 (List.replicate 4100 'x') h).2.2.1⟩

/-- Claim C3: a base64 payload of length `L > 4096` is emitted as exactly
`⌈L/4096⌉` frames; every frame's chunk payload is exactly 4096 bytes
except the last, which is at most 4096; a 10000-byte payload yields 3
frames with flags 1, 1, 0. -/
theorem chunked_frame_count_and_sizes (cols rows : Nat) (e : List Char)
    (h : 4096 < e.length) :
    (encode_kitty cols rows e).length = (e.length + 4095) / 4096 ∧
    (∀ f ∈ (encode_kitty cols rows e).dropLast, f.payload.length = 4096) ∧
    (∀ f ∈ encode_kitty cols rows e, f.payload.length ≤ 4096) ∧
    (e.length = 10000 →
      (encode_kitty cols rows e).length = 3 ∧
      (encode_kitty cols rows e).map KittyFrame.m = [some 1, some 1, some 0]) := by
  refine ⟨encode_kitty_length cols rows e h, ?_, ?_, ?_⟩
  · intro f hf
    have hp : f.payload ∈ ((encode_kitty cols rows e).dropLast).map KittyFrame.payload :=
      List.mem_map_of_mem _ hf
    rw [List.map_dropLast, encode_kitty, if_neg (by omega),
      kittyChunkFrames_map_payload] at hp
    exact chunksOf_dropLast_length 4096 (by omega) e f.payload hp
  · intro f hf
    have hp : f.payload ∈ (encode_kitty cols rows e).map KittyFrame.payload :=
      List.mem_map_of_mem _ hf
    rw [encode_kitty, if_neg (by omega), kittyChunkFrames_map_payload] at hp
    exact chunksOf_length_le 4096 e f.payload hp
  · intro h10
    have hlen : (encode_kitty cols rows e).length = 3 := by
      rw [encode_kitty_length cols rows e h, h10]
    refine ⟨hlen, ?_⟩
    rw [encode_kitty_map_m cols rows e h, hlen]
    rfl

/-- Witness for C3: a concrete 10000-character payload (the spec's
scenario) produces 3 frames with flags 1, 1, 0. -/
theorem chunked_frame_count_witness :
    4096 < (List.replicate 10000 'A').length ∧
    (List.replicate 10000 'A' : List Char).length = 10000 ∧
    (encode_kitty 17 9 (List.replicate 10000 'A')).length = 3 ∧
    (encode_kitty 17 9 (List.replicate 10000 'A')).map KittyFrame.m
      = [some 1, some 1, some 0] := by
  have h : 4096 < (List.replicate 10000 'A').length := by
    rw [List.length_replicate]
    norm_num
  have h10 : (List.replicate 10000 'A' : List Char).length = 10000 :=
    List.length_replicate 10000 'A'
  have hc := (chunked_frame_count_and_sizes 17 9 (List.replicate 10000 'A') h).2.2.2 h10
  exact ⟨h, h10, hc.1, hc.2⟩

/-- Claim C4: a base64 payload of at most 4096 bytes is emitted as exactly
one frame of the bit-exact form
`ESC _Gf=100,a=T,t=d,c=<cols>,r=<rows>;<base64> ESC \`. -/
theorem single_frame_format (cols rows : Nat) (png : List Nat)
    (h : (base64Encode png).length ≤ 4096) :
    encode_kitty cols rows (base64Encode png)
      = [kittySingleFrame cols rows (base64Encode png)] ∧
    encodeKittyStr cols rows (base64Encode png)
      = escChar :: ("_Gf=100,a=T,t=d,c=".toList ++ natChars cols ++ ",r=".toList
          ++ natChars rows ++ ";".toList ++ base64Encode png ++ [escChar, '\\']) := by
  constructor
  · rw [encode_kitty, if_pos h]
  · rw [encodeKittyStr, encode_kitty, if_pos h]
    simp [renderFrame, kittySingleFrame]

/-- Witness for C4: the empty PNG stream (payload length 0 ≤ 4096) with
the cell counts of the spec's 300×100 scenario (`c=25,r=5`). -/
theorem single_frame_format_witness :
    (base64Encode []).length ≤ 4096 ∧
    encode_kitty 25 5 (base64Encode []) = [kittySingleFrame 25 5 (base64Encode [])] := by
  have h : (base64Encode []).length ≤ 4096 := by simp [base64Encode]
  exact ⟨h, (single_frame_format 25 5 [] h).1⟩

/-! ## Protocol detection

Model of `GraphicsBackend::detect_protocol` (`src/graphics/mod.rs`,
lines 41–69).  The process environment is a record of the four variables
the function reads; an unset (or non-unicode) variable is `none`. -/

inductive GraphicsProtocol where
  | Kitty
  | Sixel
  | ITerm2
  | Fallback
deriving DecidableEq, Repr

structure Env where
  kittyWindowId : Option String
  term : Option String
  termProgram : Option String
  weztermPane : Option String
deriving Repr

/-- Substring test on char lists (Rust `str::contains`). -/
def hasSubstr (pat : List Char) : List Char → Bool
  | [] => pat.isEmpty
  | c :: t => pat.isPrefixOf (c :: t) || hasSubstr pat t

def strContains (s pat : String) : Bool := hasSubstr pat.toList s.toList

/-- The detection cascade: `KITTY_WINDOW_ID` set, `TERM` containing
`"kitty"`, `TERM_PROGRAM == "iTerm.app"`, `WEZTERM_PANE` set, else
fallback. -/
def detect_protocol (e : Env) : GraphicsProtocol :=
  if e.kittyWindowId.isSome then GraphicsProtocol.Kitty
  else if (match e.term with
           | some t => strContains t "kitty"
           | none => false) then GraphicsProtocol.Kitty
  else if e.termProgram = some "iTerm.app" then GraphicsProtocol.ITerm2
  else if e.weztermPane.isSome then GraphicsProtocol.Kitty
  else GraphicsProtocol.Fallback

/-- Claim C5: detection is the stated priority cascade: (a) window-identity
variable present ⇒ Kitty; (b) else `TERM` containing `"kitty"` ⇒ Kitty;
(c) else `TERM_PROGRAM = "iTerm.app"` ⇒ ITerm2; (d) else `WEZTERM_PANE`
present ⇒ Kitty; (e) else Fallback.  In particular, with both the
window-identity variable and the iTerm vendor variable set, detection
returns Kitty, not ITerm2. -/
theorem detect_protocol_priority (e : Env) :
    (e.kittyWindowId.isSome → detect_protocol e = GraphicsProtocol.Kitty) ∧
    (e.kittyWindowId = none →
      (∃ t, e.term = some t ∧ strContains t "kitty" = true) →
      detect_protocol e = GraphicsProtocol.Kitty) ∧
    (e.kittyWindowId = none →
      (∀ t, e.term = some t → strContains t "kitty" = false) →
      e.termProgram = some "iTerm.app" →
      detect_protocol e = GraphicsProtocol.ITerm2) ∧
    (e.kittyWindowId = none →
      (∀ t, e.term = some t → strContains t "kitty" = false) →
      e.termProgram ≠ some "iTerm.app" →
      e.weztermPane.isSome →
      detect_protocol e = GraphicsProtocol.Kitty) ∧
    (e.kittyWindowId = none →
      (∀ t, e.term = some t → strContains t "kitty" = false) →
      e.termProgram ≠ some "iTerm.app" →
      e.weztermPane = none →
      detect_protocol e = GraphicsProtocol.Fallback) ∧
    (e.kittyWindowId.isSome → e.termProgram = some "iTerm.app" →
      detect_protocol e = GraphicsProtocol.Kitty) := by
  refine ⟨?_, ?_, ?_, ?_, ?_, ?_⟩
  · intro h
    rw [detect_protocol, if_pos h]
  · intro h1 h2
    obtain ⟨t, ht, hc⟩ := h2
    rw [detect_protocol, if_neg (by simp [h1]), if_pos (by rw [ht]; exact hc)]
  · intro h1 h2 h3
    rw [detect_protocol, if_neg (by simp [h1]), if_neg ?_, if_pos h3]
    cases he : e.term with
    | none => simp [he]
    | some t => simp [he, h2 t he]
  · intro h1 h2 h3 h4
    rw [detect_protocol, if_neg (by simp [h1]), if_neg ?_, if_neg h3, if_pos h4]
    cases he : e.term with
    | none => simp [he]
    | some t => simp [he, h2 t he]
  · intro h1 h2 h3 h4
    rw [detect_protocol, if_neg (by simp [h1]), if_neg ?_, if_neg h3,
      if_neg (by simp [h4])]
    cases he : e.term with
    | none => simp [he]
    | some t => simp [he, h2 t he]
  · intro h _
    rw [detect_protocol, if_pos h]

/-- Witness for C5 at the concrete environment where both the window
identity and the iTerm vendor string are set: detection yields Kitty. -/
theorem detect_protocol_priority_witness :
    detect_protocol ⟨some "1", none, some "iTerm.app", none⟩ = GraphicsProtocol.Kitty := by
  exact (detect_protocol_priority ⟨some "1", none, some "iTerm.app", none⟩).1 rfl

/-! ## Paths, extensions and the supported-format check

Model of `ThumbnailCache::is_image_file` (`src/graphics/thumbnails.rs`,
lines 56–63).  A path is modelled by its final file-name component as a
char list.  `Path::extension` returns the part after the last `.` of the
file name, and `None` when there is no `.` or when the only `.` is the
leading character (hidden files like `.png` have no extension); the
special components `.` and `..` are not modelled.  Lowercasing is ASCII
(`Char.toLower`), which agrees with Rust's `to_lowercase` on every ASCII
extension the check compares against. -/

/-- Characters of the reversed input before its first `.`; `none` when the
input has no `.` at all. -/
def takeUntilDot : List Char → Option (List Char)
  | [] => none
  | c :: t => if c = '.' then some [] else (takeUntilDot t).map (c :: ·)

/-- Model of `Path::extension` on the file name. -/
def extensionOf (cs : List Char) : Option (List Char) :=
  match takeUntilDot cs.reverse with
  | none => none
  | some e => if e.length + 1 = cs.length then none else some e.reverse

/-- `path.extension().and_then(|e| e.to_str()).map(|e| e.to_lowercase()).unwrap_or_default()`. -/
def extLower (cs : List Char) : List Char :=
  ((extensionOf cs).map (List.map Char.toLower)).getD []

def imageExtensions : List (List Char) :=
  ["png".toList, "jpg".toList, "jpeg".toList, "gif".toList,
   "webp".toList, "bmp".toList, "ico".toList]

/-- `matches!(ext.as_str(), "png" | "jpg" | "jpeg" | "gif" | "webp" | "bmp" | "ico")`. -/
def is_image_file (path : List Char) : Bool :=
  extLower path == "png".toList || extLower path == "jpg".toList
    || extLower path == "jpeg".toList || extLower path == "gif".toList
    || extLower path == "webp".toList || extLower path == "bmp".toList
    || extLower path == "ico".toList

/-! ## The thumbnail and icon caches

Models of `ThumbnailCache::get_thumbnail` (`thumbnails.rs`, lines 31–53)
and `IconManager::get_icon_sequence` (`icons.rs`, lines 30–49).  The
`HashMap` is an association list; the external image decoder
(`image::open`, which may fail) and the pure resize+protocol-encode step
are parameters; the fetch result records how often each was invoked so
that "no recomputation" is observable. -/

def lookupCache (c : List (List Char × List Char)) (k : List Char) : Option (List Char) :=
  match c with
  | [] => none
  | (k', v) :: t => if k' == k then some v else lookupCache t k

structure ThumbFetch where
  result : Option (List Char)
  cache : List (List Char × List Char)
  decoderCalls : Nat
  encoderCalls : Nat
deriving DecidableEq, Repr

/-- `get_thumbnail`: reject non-image names, then consult the cache, then
decode (`image::open(path).ok()?`), then resize+encode and store. -/
def get_thumbnail {β : Type} (decode : List Char → Option β)
    (encodeSeq : β → List Char)
    (cache : List (List Char × List Char)) (path : List Char) : ThumbFetch :=
  if is_image_file path = false then ⟨none, cache, 0, 0⟩
  else
    match lookupCache cache path with
    | some s => ⟨some s, cache, 0, 0⟩
    | none =>
      match decode path with
      | none => ⟨none, cache, 1, 0⟩
      | some img => ⟨some (encodeSeq img), (path, encodeSeq img) :: cache, 1, 1⟩

structure IconFetch where
  result : List Char
  cache : List (List Char × List Char)
  builderCalls : Nat
deriving DecidableEq, Repr

/-- `get_icon_sequence`: empty string without graphics support; key is
`"folder"` for directories, the file type otherwise; on miss, generate and
encode the icon and store it. -/
def get_icon_sequence {γ : Type} (supports : Bool)
    (generate : List Char → Bool → γ) (encodeIcon : γ → List Char)
    (cache : List (List Char × List Char)) (fileType : List Char)
    (isDir : Bool) : IconFetch :=
  if supports = false then ⟨[], cache, 0⟩
  else
    match lookupCache cache (if isDir then "folder".toList else fileType) with
    | some s => ⟨s, cache, 0⟩
    | none =>
      ⟨encodeIcon (generate fileType isDir),
       ((if isDir then "folder".toList else fileType),
        encodeIcon (generate fileType isDir)) :: cache, 1⟩

theorem lookupCache_insert_self (c : List (List Char × List Char))
    (k v : List Char) : lookupCache ((k, v) :: c) k = some v := by
  simp [lookupCache]

/-! Single-fetch behaviour of the icon cache, by cases. -/

theorem get_icon_sequence_no_support {γ : Type}
    (generate : List Char → Bool → γ) (encodeIcon : γ → List Char)
    (cache : List (List Char × List Char)) (fileType : List Char) (isDir : Bool) :
    get_icon_sequence false generate encodeIcon cache fileType isDir
      = ⟨[], cache, 0⟩ := by
  rw [get_icon_sequence, if_pos rfl]

theorem get_icon_sequence_hit {γ : Type} {supports : Bool}
    (hs : ¬supports = false)
    (generate : List Char → Bool → γ) (encodeIcon : γ → List Char)
    {cache : List (List Char × List Char)} {fileType : List Char} {isDir : Bool}
    {s : List Char}
    (hl : lookupCache cache (if isDir then "folder".toList else fileType) = some s) :
    get_icon_sequence supports generate encodeIcon cache fileType isDir
      = ⟨s, cache, 0⟩ := by
  rw [get_icon_sequence, if_neg hs, hl]

theorem get_icon_sequence_miss {γ : Type} {supports : Bool}
    (hs : ¬supports = false)
    (generate : List Char → Bool → γ) (encodeIcon : γ → List Char)
    {cache : List (List Char × List Char)} {fileType : List Char} {isDir : Bool}
    (hl : lookupCache cache (if isDir then "folder".toList else fileType) = none) :
    get_icon_sequence supports generate encodeIcon cache fileType isDir
      = ⟨encodeIcon (generate fileType isDir),
         ((if isDir then "folder".toList else fileType),
          encodeIcon (generate fileType isDir)) :: cache, 1⟩ := by
  rw [get_icon_sequence, if_neg hs, hl]

/-! ## Claim C6: cache idempotence -/

/-- Counterexample to claim C6 as stated: for a path with a supported
image extension whose decode fails (`image::open` errors), nothing is
cached, so the second consecutive fetch invokes the decoder again —
the claim requires the second fetch to invoke neither decoder nor
encoder. -/
theorem cache_idempotence_counterexample :
    (get_thumbnail (fun _ => (none : Option Unit)) (fun _ => [])
      ((get_thumbnail (fun _ => (none : Option Unit)) (fun _ => [])
        [] "a.png".toList).cache) "a.png".toList).decoderCalls = 1 := by
  rfl

/-- Claim C6 as amended: for both caches, two consecutive fetches of the
same key return identical results; the second fetch performs no
recomputation whenever the first fetch produced a value (for the icon
cache this is unconditional; for the thumbnail cache a failed decode
caches nothing and is re-attempted). -/
theorem cache_idempotence_amended {β γ : Type}
    (decode : List Char → Option β) (encodeSeq : β → List Char)
    (cache : List (List Char × List Char)) (path : List Char)
    (supports : Bool) (generate : List Char → Bool → γ)
    (encodeIcon : γ → List Char)
    (icache : List (List Char × List Char)) (fileType : List Char)
    (isDir : Bool) :
    (get_thumbnail decode encodeSeq
        (get_thumbnail decode encodeSeq cache path).cache path).result
      = (get_thumbnail decode encodeSeq cache path).result ∧
    ((get_thumbnail decode encodeSeq cache path).result.isSome →
      (get_thumbnail decode encodeSeq
          (get_thumbnail decode encodeSeq cache path).cache path).decoderCalls = 0 ∧
      (get_thumbnail decode encodeSeq
          (get_thumbnail decode encodeSeq cache path).cache path).encoderCalls = 0) ∧
    (get_icon_sequence supports generate encodeIcon
        (get_icon_sequence supports generate encodeIcon icache fileType isDir).cache
        fileType isDir).result
      = (get_icon_sequence supports generate encodeIcon icache fileType isDir).result ∧
    (get_icon_sequence supports generate encodeIcon
        (get_icon_sequence supports generate encodeIcon icache fileType isDir).cache
        fileType isDir).builderCalls = 0 := by
  constructor
  · by_cases hi : is_image_file path = false
    · simp [get_thumbnail, hi]
    · rcases hl : lookupCache cache path with _ | s
      · rcases hd : decode path with _ | img
        · simp [get_thumbnail, hi, hl, hd]
        · simp [get_thumbnail, hi, hl, hd, lookupCache_insert_self]
      · simp [get_thumbnail, hi, hl]
  constructor
  · intro hsome
    by_cases hi : is_image_file path = false
    · simp [get_thumbnail, hi] at hsome
    · rcases hl : lookupCache cache path with _ | s
      · rcases hd : decode path with _ | img
        · simp [get_thumbnail, hi, hl, hd] at hsome
        · constructor <;>
            simp [get_thumbnail, hi, hl, hd, lookupCache_insert_self]
      · constructor <;> simp [get_thumbnail, hi, hl]
  · by_cases hs : supports = false
    · subst hs
      rw [get_icon_sequence_no_support, get_icon_sequence_no_support]
      exact ⟨rfl, rfl⟩
    · rcases hl : lookupCache icache (if isDir then "folder".toList else fileType)
        with _ | s
      · rw [get_icon_sequence_miss hs generate encodeIcon hl]
        rw [get_icon_sequence_hit hs generate encodeIcon
          (lookupCache_insert_self icache _ _)]
        exact ⟨rfl, rfl⟩
      · rw [get_icon_sequence_hit hs generate encodeIcon hl]
        rw [get_icon_sequence_hit hs generate encodeIcon hl]
        exact ⟨rfl, rfl⟩

/-- Witness for the amended C6: a successful first fetch (decode succeeds)
after which the second fetch makes zero decoder calls. -/
theorem cache_idempotence_amended_witness :
    (get_thumbnail (fun _ => some ()) (fun _ => "seq".toList)
        [] "b.png".toList).result.isSome = true ∧
    (get_thumbnail (fun _ => some ()) (fun _ => "seq".toList)
        (get_thumbnail (fun _ => some ()) (fun _ => "seq".toList)
          [] "b.png".toList).cache "b.png".toList).decoderCalls = 0 := by
  have h := (cache_idempotence_amended (fun _ => some ()) (fun _ => "seq".toList)
    [] "b.png".toList false (fun _ _ => ()) (fun _ => []) [] [] false).2.1
  exact ⟨rfl, (h (by rfl)).1⟩

/-! ## Claim C8: decode failure degrades to an absent result -/

/-- Claim C8: a fetch that encounters a missing/unreadable/unsupported
file (no cached entry, and either the name check or the decode fails)
returns `none` — never an error — and stores nothing in the cache. -/
theorem decode_failure_absent_result {β : Type} (decode : List Char → Option β)
    (encodeSeq : β → List Char) (cache : List (List Char × List Char))
    (path : List Char) (hnc : lookupCache cache path = none)
    (hfail : is_image_file path = false ∨ decode path = none) :
    (get_thumbnail decode encodeSeq cache path).result = none ∧
    (get_thumbnail decode encodeSeq cache path).cache = cache := by
  rcases hfail with hf | hf
  · simp [get_thumbnail, hf]
  · by_cases hi : is_image_file path = false
    · simp [get_thumbnail, hi]
    · simp [get_thumbnail, hi, hnc, hf]

/-- Witness for C8: a supported extension whose decode fails. -/
theorem decode_failure_absent_result_witness :
    lookupCache [] "c.png".toList = none ∧
    (get_thumbnail (fun _ => (none : Option Unit)) (fun _ => [])
        [] "c.png".toList).result = none ∧
    (get_thumbnail (fun _ => (none : Option Unit)) (fun _ => [])
        [] "c.png".toList).cache = [] := by
  have h := decode_failure_absent_result (fun _ => (none : Option Unit)) (fun _ => [])
    [] "c.png".toList rfl (Or.inr rfl)
  exact ⟨rfl, h.1, h.2⟩

/-! ## Claim C10: the name check short-circuits everything -/

theorem is_image_file_false_of_not_mem (path : List Char)
    (h : extLower path ∉ imageExtensions) : is_image_file path = false := by
  simp only [imageExtensions, List.mem_cons, List.not_mem_nil, or_false, not_or] at h
  obtain ⟨h1, h2, h3, h4, h5, h6, h7⟩ := h
  simp only [is_image_file, Bool.or_eq_false_iff, beq_eq_false_iff_ne, ne_eq]
  exact ⟨⟨⟨⟨⟨⟨h1, h2⟩, h3⟩, h4⟩, h5⟩, h6⟩, h7⟩

/-- Claim C10: for every path whose lowercased extension is not one of
`png, jpg, jpeg, gif, webp, bmp, ico` — including paths with no extension —
the fetch returns `none` immediately, with zero decoder and encoder
invocations and the cache untouched; the check is a function of the file
name alone. -/
theorem unsupported_extension_short_circuit {β : Type}
    (decode : List Char → Option β) (encodeSeq : β → List Char)
    (cache : List (List Char × List Char)) (path : List Char)
    (h : extLower path ∉ imageExtensions) :
    get_thumbnail decode encodeSeq cache path = ⟨none, cache, 0, 0⟩ := by
  rw [get_thumbnail, if_pos (is_image_file_false_of_not_mem path h)]

/-- Witness for C10: an extensionless file name. -/
theorem unsupported_extension_short_circuit_witness :
    extLower "README".toList ∉ imageExtensions ∧
    get_thumbnail (fun _ => (none : Option Unit)) (fun _ => [])
      [] "README".toList = ⟨none, [], 0, 0⟩ := by
  have h : extLower "README".toList ∉ imageExtensions := by decide
  exact ⟨h, unsupported_extension_short_circuit (fun _ => (none : Option Unit))
    (fun _ => []) [] "README".toList h⟩

/-! ## Thumbnail dimensions (claim C7)

Model of `ThumbnailCache::create_thumbnail` (`thumbnails.rs`, lines
66–76): `if w > h` the width becomes 200 and the height
`(200 as f32 * h as f32 / w as f32) as u32`; symmetrically otherwise.
The `as u32` cast truncates toward zero, so the scaled axis is the exact
quotient rounded *down*, modelled by `Nat` division (the `f32`
computation is exact at the 7×3 counterexample below:
`600.0 / 7.0 ≈ 85.714` truncates to 85 in `f32` as in exact
arithmetic). -/

def THUMBNAIL_SIZE : Nat := 200

def create_thumbnail_dims (w h : Nat) : Nat × Nat :=
  if h < w then (THUMBNAIL_SIZE, THUMBNAIL_SIZE * h / w)
  else (THUMBNAIL_SIZE * w / h, THUMBNAIL_SIZE)

/-- Counterexample to claim C7 as stated: at source size 7×3 the code
computes `(200, 85)` — `600/7 ≈ 85.71` truncated, not rounded to the
nearest pixel (which would be 86) — and the claimed bound
`|outW/outH − srcW/srcH| < 1/min(outW,outH)` fails:
`|200/85 − 7/3| = 1/51 ≥ 1/85`. -/
theorem aspect_ratio_counterexample :
    create_thumbnail_dims 7 3 = (200, 85) ∧
    ¬(|((create_thumbnail_dims 7 3).1 : ℚ) / ((create_thumbnail_dims 7 3).2 : ℚ)
        - 7 / 3|
      < 1 / (min (create_thumbnail_dims 7 3).1 (create_thumbnail_dims 7 3).2 : ℚ)) ∧
    |(86 : ℚ) - 200 * 3 / 7| < |((create_thumbnail_dims 7 3).2 : ℚ) - 200 * 3 / 7| := by
  have hd : create_thumbnail_dims 7 3 = (200, 85) := by decide
  refine ⟨hd, ?_, ?_⟩
  · rw [hd]
    norm_num
    rw [abs_of_pos (by norm_num)]
    norm_num
  · rw [hd]
    rw [abs_of_pos (by norm_num), abs_of_neg (by norm_num)]
    norm_num

/-- Claim C7 as amended: the larger source axis maps to the fixed bound
200 and the other axis scales proportionally rounded *toward zero*
(truncation, not nearest); consequently the aspect-ratio error obeys the
weaker bound `|outW/outH − srcW/srcH| < 200 / min(outW,outH)²` whenever
both output dimensions are positive. -/
theorem aspect_ratio_bound_amended (w h : Nat) (hw : 0 < w) (hh : 0 < h)
    (hmin : 0 < min (create_thumbnail_dims w h).1 (create_thumbnail_dims w h).2) :
    (h < w → (create_thumbnail_dims w h).1 = 200) ∧
    (w ≤ h → (create_thumbnail_dims w h).2 = 200) ∧
    |((create_thumbnail_dims w h).1 : ℚ) / ((create_thumbnail_dims w h).2 : ℚ)
        - (w : ℚ) / (h : ℚ)|
      < 200 / (min (create_thumbnail_dims w h).1 (create_thumbnail_dims w h).2 : ℚ) ^ 2 := by
  by_cases hlt : h < w
  · have hd : create_thumbnail_dims w h = (200, 200 * h / w) := by
      rw [create_thumbnail_dims, if_pos hlt]
      rfl
    rw [hd] at hmin ⊢
    refine ⟨fun _ => rfl, fun hc => absurd hc (by omega), ?_⟩
    simp only at hmin ⊢
    set q : Nat := 200 * h / w with hq
    have hqpos : 0 < q := by
      rcases Nat.lt_or_ge q 200 with _ | h200
      · omega
      · omega
    have hq200 : q < 200 := by
      rw [hq, Nat.div_lt_iff_lt_mul hw]
      have : h * 200 < w * 200 := (Nat.mul_lt_mul_right (by norm_num)).mpr hlt
      omega
    have hminQ : ((200 : Nat) : ℚ) ⊓ (q : ℚ) = (q : ℚ) := by
      apply min_eq_right
      exact_mod_cast le_of_lt hq200
    rw [hminQ]
    -- division with remainder: 200 h = w q + r, 0 ≤ r < w
    have hdm : w * q + 200 * h % w = 200 * h := Nat.div_add_mod (200 * h) w
    set r : Nat := 200 * h % w with hr
    have hrw : r < w := Nat.mod_lt _ hw
    -- cast everything to ℚ
    have hqQ : (0 : ℚ) < (q : ℚ) := by exact_mod_cast hqpos
    have hhQ : (0 : ℚ) < (h : ℚ) := by exact_mod_cast hh
    have hwQ : (0 : ℚ) < (w : ℚ) := by exact_mod_cast hw
    have habs : |((200 : Nat) : ℚ) / (q : ℚ) - (w : ℚ) / (h : ℚ)|
        = (r : ℚ) / ((q : ℚ) * (h : ℚ)) := by
      have hsub : ((200 : Nat) : ℚ) / (q : ℚ) - (w : ℚ) / (h : ℚ)
          = ((200 : ℚ) * h - (w : ℚ) * q) / ((q : ℚ) * h) := by
        push_cast
        field_simp
        ring
      have hnum : (200 : ℚ) * h - (w : ℚ) * q = (r : ℚ) := by
        have : (w : ℚ) * q + (r : ℚ) = 200 * h := by exact_mod_cast hdm
        linarith
      rw [hsub, hnum, abs_of_nonneg (by positivity)]
    rw [habs]
    rw [div_lt_div_iff₀ (by positivity) (by positivity)]
    -- reduces to r * q² < 200 * q * h, from r*q < w*q ≤ 200*h
    have hwq : w * q ≤ 200 * h := Nat.le.intro hdm
    have hnat : r * q < 200 * h := by
      calc r * q < w * q := (Nat.mul_lt_mul_right hqpos).mpr hrw
        _ ≤ 200 * h := hwq
    have hnatQ : (r : ℚ) * q < 200 * h := by exact_mod_cast hnat
    have hgoal : (r : ℚ) * q * q < 200 * h * q :=
      mul_lt_mul_of_pos_right hnatQ hqQ
    nlinarith [hgoal]
  · push_neg at hlt
    have hd : create_thumbnail_dims w h = (200 * w / h, 200) := by
      rw [create_thumbnail_dims, if_neg (by omega)]
      rfl
    rw [hd] at hmin ⊢
    refine ⟨fun hc => absurd hc (by omega), fun _ => rfl, ?_⟩
    simp only at hmin ⊢
    set p : Nat := 200 * w / h with hp
    have hppos : 0 < p := by omega
    have hp200 : p ≤ 200 := by
      rw [hp, Nat.div_le_iff_le_mul_add_pred hh]
      have : 200 * w ≤ 200 * h := Nat.mul_le_mul_left 200 hlt
      omega
    have hminQ : (p : ℚ) ⊓ ((200 : Nat) : ℚ) = (p : ℚ) := by
      apply min_eq_left
      exact_mod_cast hp200
    rw [hminQ]
    have hdm : h * p + 200 * w % h = 200 * w := Nat.div_add_mod (200 * w) h
    set r : Nat := 200 * w % h with hr
    have hrh : r < h := Nat.mod_lt _ hh
    have hpQ : (0 : ℚ) < (p : ℚ) := by exact_mod_cast hppos
    have hhQ : (0 : ℚ) < (h : ℚ) := by exact_mod_cast hh
    have habs : |(p : ℚ) / ((200 : Nat) : ℚ) - (w : ℚ) / (h : ℚ)|
        = (r : ℚ) / ((200 : ℚ) * (h : ℚ)) := by
      have hsub : (p : ℚ) / ((200 : Nat) : ℚ) - (w : ℚ) / (h : ℚ)
          = ((p : ℚ) * h - (w : ℚ) * 200) / ((200 : ℚ) * h) := by
        push_cast
        field_simp
        ring
      have hnum : (p : ℚ) * h - (w : ℚ) * 200 = -(r : ℚ) := by
        have : (h : ℚ) * p + (r : ℚ) = 200 * w := by exact_mod_cast hdm
        linarith
      rw [hsub, hnum, neg_div, abs_neg, abs_of_nonneg (by positivity)]
    rw [habs]
    rw [div_lt_div_iff₀ (by positivity) (by positivity)]
    -- reduces to r * p² < 200 * (200 * h), from r < h and p ≤ 200
    have hrQ : (r : ℚ) < h := by exact_mod_cast hrh
    have hpQ' : (p : ℚ) ≤ 200 := by exact_mod_cast hp200
    have hp2 : (p : ℚ) ^ 2 ≤ 40000 := by nlinarith
    have hr0 : (0 : ℚ) ≤ (r : ℚ) := by positivity
    have h1 : (r : ℚ) * (p : ℚ) ^ 2 ≤ (r : ℚ) * 40000 :=
      mul_le_mul_of_nonneg_left hp2 hr0
    have h2 : (r : ℚ) * 40000 < (h : ℚ) * 40000 :=
      mul_lt_mul_of_pos_right hrQ (by norm_num)
    linarith

/-- Witness for the amended C7 at the 7×3 counterexample input: the
truncated dimensions `(200, 85)` satisfy the corrected bound
`1/51 < 200/85²`. -/
theorem aspect_ratio_bound_amended_witness :
    (0 : Nat) < 7 ∧ (0 : Nat) < 3 ∧
    0 < min (create_thumbnail_dims 7 3).1 (create_thumbnail_dims 7 3).2 ∧
    |((create_thumbnail_dims 7 3).1 : ℚ) / ((create_thumbnail_dims 7 3).2 : ℚ)
        - (7 : ℚ) / (3 : ℚ)|
      < 200 / (min (create_thumbnail_dims 7 3).1 (create_thumbnail_dims 7 3).2 : ℚ) ^ 2 := by
  have h1 : (0 : Nat) < 7 := by norm_num
  have h2 : (0 : Nat) < 3 := by norm_num
  have h3 : 0 < min (create_thumbnail_dims 7 3).1 (create_thumbnail_dims 7 3).2 := by
    decide
  exact ⟨h1, h2, h3, (aspect_ratio_bound_amended 7 3 h1 h2 h3).2.2⟩

/-! ## Icon synthesis (claim C9)

Model of `IconManager::generate_icon` (`icons.rs`, lines 52–85): a 16×16
RGBA image starts fully transparent (`RgbaImage::new` zero-fills), the
body rectangle `x, y ∈ [2, ICON_SIZE-2)` is filled with the chosen color,
and for directories a tab mark is drawn at `y = 1`, `x ∈ [2, 8)`.  Images
are pixel maps `Nat → Nat → Rgba`. -/

def ICON_SIZE : Nat := 16

structure Rgba where
  r : Nat
  g : Nat
  b : Nat
  a : Nat
deriving DecidableEq, Repr

def Img : Type := Nat → Nat → Rgba

/-- The color table of `generate_icon`: folder blue when `is_dir`,
otherwise by file-type category with a gray default. -/
def iconColor (fileType : String) (isDir : Bool) : Rgba :=
  if isDir then ⟨100, 180, 255, 255⟩
  else if fileType = "rs" then ⟨255, 100, 50, 255⟩
  else if fileType = "py" then ⟨50, 150, 255, 255⟩
  else if fileType = "js" ∨ fileType = "ts" then ⟨255, 220, 50, 255⟩
  else if fileType = "md" then ⟨100, 200, 100, 255⟩
  else if fileType = "toml" ∨ fileType = "json" ∨ fileType = "yaml" then
    ⟨200, 150, 255, 255⟩
  else if fileType = "png" ∨ fileType = "jpg" ∨ fileType = "gif" then
    ⟨255, 100, 150, 255⟩
  else ⟨180, 180, 180, 255⟩

def iconCategories : List String :=
  ["rs", "py", "js", "ts", "md", "toml", "json", "yaml", "png", "jpg", "gif"]

/-- `RgbaImage::new` zero-initializes every pixel. -/
def blankIcon : Img := fun _ _ => ⟨0, 0, 0, 0⟩

def putPixel (img : Img) (x y : Nat) (c : Rgba) : Img :=
  fun px py => if px = x ∧ py = y then c else img px py

/-- The body fill loop: `for y in 2..ICON_SIZE-2 { for x in 2..ICON_SIZE-2 }`. -/
def fillBody (img : Img) (c : Rgba) : Img :=
  (List.range' 2 (ICON_SIZE - 4)).foldl
    (fun im y => (List.range' 2 (ICON_SIZE - 4)).foldl
      (fun im2 x => putPixel im2 x y c) im) img

/-- The folder-tab loop: `for x in 2..8 { put_pixel(x, 1, color) }`. -/
def addTab (img : Img) (c : Rgba) : Img :=
  (List.range' 2 6).foldl (fun im x => putPixel im x 1 c) img

def generate_icon (fileType : String) (isDir : Bool) : Img :=
  let c := iconColor fileType isDir
  let body := fillBody blankIcon c
  if isDir then addTab body c else body

/-! Pointwise evaluation of the fill loops. -/

theorem foldl_putPixel_row (L : List Nat) (img : Img) (c : Rgba) (y0 px py : Nat) :
    (L.foldl (fun im x => putPixel im x y0 c) img) px py
      = if px ∈ L ∧ py = y0 then c else img px py := by
  induction L generalizing img with
  | nil => simp
  | cons a t ih =>
    rw [List.foldl_cons, ih]
    simp only [putPixel, List.mem_cons]
    split_ifs <;> first | rfl | tauto

theorem foldl_fill_rows (ys xs : List Nat) (img : Img) (c : Rgba) (px py : Nat) :
    (ys.foldl (fun im y => xs.foldl (fun im2 x => putPixel im2 x y c) im) img) px py
      = if px ∈ xs ∧ py ∈ ys then c else img px py := by
  induction ys generalizing img with
  | nil => simp
  | cons b t ih =>
    rw [List.foldl_cons, ih]
    rw [foldl_putPixel_row]
    simp only [List.mem_cons]
    split_ifs <;> first | rfl | tauto

/-- Claim C9: every category outside the explicit table maps to the single
default gray; for *every* category — inside the table or not —
`is_directory = true` yields the dedicated folder color, overriding the
category color, and draws the tab mark — folder-colored pixels at
`y = 1`, `x ∈ [2, 8)` — along the top edge, pixels that stay transparent
for non-directories. -/
theorem icon_default_and_folder (fileType : String) (x : Nat)
    (hx1 : 2 ≤ x) (hx2 : x < 8) :
    (fileType ∉ iconCategories → iconColor fileType false = ⟨180, 180, 180, 255⟩) ∧
    iconColor fileType true = ⟨100, 180, 255, 255⟩ ∧
    generate_icon fileType true x 1 = ⟨100, 180, 255, 255⟩ ∧
    generate_icon fileType false x 1 = ⟨0, 0, 0, 0⟩ := by
  refine ⟨?_, rfl, ?_, ?_⟩
  · intro hft
    simp only [iconCategories, List.mem_cons, List.not_mem_nil, or_false,
      not_or] at hft
    obtain ⟨h1, h2, h3, h4, h5, h6, h7, h8, h9, h10, h11⟩ := hft
    simp [iconColor, h1, h2, h3, h4, h5, h6, h7, h8, h9, h10, h11]
  · show addTab (fillBody blankIcon (iconColor fileType true))
      (iconColor fileType true) x 1 = ⟨100, 180, 255, 255⟩
    rw [addTab, foldl_putPixel_row, if_pos ⟨by
      rw [List.mem_range'_1]
      omega, rfl⟩]
    rfl
  · show fillBody blankIcon (iconColor fileType false) x 1 = ⟨0, 0, 0, 0⟩
    rw [fillBody, foldl_fill_rows, if_neg ?_]
    · rfl
    · intro hmem
      have := hmem.2
      rw [List.mem_range'_1] at this
      omega

/-- Witness for C9 at tab pixel `x = 2`: the uncategorized file type
`"zzz"` gets the default gray, and the categorized type `"rs"` (orange as
a file) is overridden to the folder color with a folder-colored tab pixel
when requested as a directory. -/
theorem icon_default_and_folder_witness :
    ("zzz" ∉ iconCategories) ∧
    iconColor "zzz" false = ⟨180, 180, 180, 255⟩ ∧
    ("rs" ∈ iconCategories) ∧
    iconColor "rs" false = ⟨255, 100, 50, 255⟩ ∧
    iconColor "rs" true = ⟨100, 180, 255, 255⟩ ∧
    generate_icon "rs" true 2 1 = ⟨100, 180, 255, 255⟩ ∧
    generate_icon "rs" false 2 1 = ⟨0, 0, 0, 0⟩ := by
  have hft : "zzz" ∉ iconCategories := by decide
  have hz := icon_default_and_folder "zzz" 2 (by norm_num) (by norm_num)
  have hr := icon_default_and_folder "rs" 2 (by norm_num) (by norm_num)
  exact ⟨hft, hz.1 hft, by decide, rfl, hr.2.1, hr.2.2.1, hr.2.2.2⟩

end TermGraph
